import Mathlib

/-!
# Verification of the `ringbuffer` C module (`src/ring_buffer.c`)

Shallow embedding of the fixed-capacity circular byte buffer.  The C
struct `RingBuffer { char *buffer; int length; int start; int end; }`
becomes a Lean structure whose index fields are `Int` (C `int`), and the
backing byte array becomes a `List Int`.  `memcpy` into the backing array
is modelled by `storeAt` (an in-bounds range overwrite) and reads out of
it by `readBytes`; both are total, reading out of range yields 0.

C's `%` on `int` agrees with Lean's `Int.emod` whenever both operands
are nonnegative; every `%` the embedded operations perform has
nonnegative operands at all states quantified over in the theorems
below (and in all concrete evaluations), so `%` here is a faithful
model of the C expression.

`end` is a Lean keyword, so the struct field is named `end_`.
-/

structure RingBuffer where
  buffer : List Int
  length : Int
  start : Int
  end_ : Int
  deriving Repr, DecidableEq

/-- Model of `memcpy(s + off, d, d.length)`: overwrite the slice of `s`
beginning at offset `off` with the bytes of `d`; positions outside the
written range keep their old value, and the list length is preserved. -/
def storeAt (s : List Int) (off : Int) (d : List Int) : List Int :=
  (List.range s.length).map (fun (i : Nat) =>
    if off ≤ (i : Int) ∧ (i : Int) < off + d.length then
      d.getD (i - off.toNat) 0
    else s.getD i 0)

/-- Model of `memcpy(dst, s + off, n)`: the `n` bytes of `s` starting at
offset `off` (out-of-range positions read as 0). -/
def readBytes (s : List Int) (off : Int) (n : Int) : List Int :=
  (List.range n.toNat).map (fun i => s.getD (off.toNat + i) 0)

/-- `RingBuffer_create`: zero-filled storage of `length` bytes, both
index fields set to the out-of-range sentinel `length` (empty). -/
def RingBuffer_create (length : Int) : RingBuffer :=
  { buffer := List.replicate length.toNat 0
    length := length
    start := length
    end_ := length }

/-- `RingBuffer_used_space`: 0 if empty, else
`(length + end - start) % length + 1`. -/
def RingBuffer_used_space (b : RingBuffer) : Int :=
  if b.start = b.length then 0
  else (b.length + b.end_ - b.start) % b.length + 1

/-- `RingBuffer_available_space`: `length` if empty, else
`length - ((length + end - start) % length + 1)` (the C function inlines
the expression rather than calling `RingBuffer_used_space`). -/
def RingBuffer_available_space (b : RingBuffer) : Int :=
  if b.start = b.length then b.length
  else b.length - ((b.length + b.end_ - b.start) % b.length + 1)

/-- `RingBuffer_dist_to_end`: physical distance from `end` to the point
where a write would have to wrap. -/
def RingBuffer_dist_to_end (b : RingBuffer) : Int :=
  if b.start = b.length then b.length
  else if b.start > b.end_ then b.start - b.end_ - 1
  else b.length - b.end_ - 1

/-- `RingBuffer_write`: overwriting write.  Returns the C function's
`int` result (`length` on success, `-1` on the capacity check) paired
with the post-state.  The in-model `memcpy` never fails, so the C
branches `if(result == NULL) return -1` are unreachable here. -/
def RingBuffer_write (b : RingBuffer) (data : List Int) (length : Int) :
    Int × RingBuffer :=
  if b.length < length then (-1, b)
  else if b.start = b.length then
    -- Empty ring, put things in from the front
    (length,
      { b with
          buffer := storeAt b.buffer 0 (data.take length.toNat)
          start := 0
          end_ := length - 1 })
  else if RingBuffer_dist_to_end b < length then
    -- Not enough room at the end of the ring: split copy, wrap around
    (length,
      { b with
          buffer :=
            storeAt
              (storeAt b.buffer (b.end_ + 1)
                (data.take (RingBuffer_dist_to_end b).toNat))
              0
              ((data.drop (RingBuffer_dist_to_end b).toNat).take
                (length - RingBuffer_dist_to_end b).toNat)
          end_ := (b.end_ + length) % b.length
          start :=
            if RingBuffer_available_space b < length then
              (b.start + (length - RingBuffer_available_space b)) % b.length
            else b.start })
  else
    -- Simple copy onto the end
    (length,
      { b with
          buffer := storeAt b.buffer (b.end_ + 1) (data.take length.toNat)
          end_ := b.end_ + length
          start :=
            if RingBuffer_available_space b < length then
              (b.start + (length - RingBuffer_available_space b)) % b.length
            else b.start })

/-- `RingBuffer_safe_write`: reject (`-1`, state untouched) when
`available_space < length`, otherwise delegate to `RingBuffer_write`. -/
def RingBuffer_safe_write (b : RingBuffer) (data : List Int) (length : Int) :
    Int × RingBuffer :=
  if RingBuffer_available_space b < length then (-1, b)
  else RingBuffer_write b data length

/-- Body of `RingBuffer_pop` after the initial clamp of the C local
`length` (called `len` here).  `none` models the C `NULL` return on an
empty buffer; `some data` models the freshly allocated byte sequence.
The split-copy decision via `dist_to_end`, the `start` advance
(`start += len; start %= length`), and the collapse-to-sentinel check
`len != 0 && start == end + 1` follow the C source line by line. -/
def popAfterClamp (b : RingBuffer) (len : Int) :
    Option (List Int) × RingBuffer :=
  if b.start = b.length then (none, b)
  else
    (some
      (if RingBuffer_dist_to_end b < len then
        readBytes b.buffer b.start (RingBuffer_dist_to_end b + 1) ++
          readBytes b.buffer 0 (len - RingBuffer_dist_to_end b - 1)
      else readBytes b.buffer b.start len),
     if len ≠ 0 ∧ (b.start + len) % b.length = b.end_ + 1 then
       { b with start := b.length, end_ := b.length }
     else
       { b with start := (b.start + len) % b.length })

/-- `RingBuffer_pop`: destructive read.  First the requested `length`
is clamped to `used_space` (`if(used_space < length) length = used_space`),
then the body runs. -/
def RingBuffer_pop (b : RingBuffer) (length : Int) :
    Option (List Int) × RingBuffer :=
  popAfterClamp b
    (if RingBuffer_used_space b < length then RingBuffer_used_space b
     else length)

/-- `RingBuffer_clear`: reset both index fields to the sentinel. -/
def RingBuffer_clear (b : RingBuffer) : RingBuffer :=
  { b with start := b.length, end_ := b.length }

/-- The index invariant of the spec's data model: either the empty
sentinel (`start = end = capacity`) or both indices are valid storage
positions. -/
def WF (b : RingBuffer) : Prop :=
  (b.start = b.length ∧ b.end_ = b.length) ∨
    (0 ≤ b.start ∧ b.start < b.length ∧ 0 ≤ b.end_ ∧ b.end_ < b.length)

instance (b : RingBuffer) : Decidable (WF b) := by
  unfold WF; infer_instance

/-- States reachable from `RingBuffer_create` through the public
mutating operations.  Write lengths are restricted to `1 ≤ l` and pop
lengths to `0 ≤ l` (byte counts; a negative length is undefined
behaviour in the C source, passing it to `memcpy`/`calloc`). -/
inductive Reach : RingBuffer → Prop where
  | created (cap : Int) (hcap : 1 ≤ cap) : Reach (RingBuffer_create cap)
  | wrote (b : RingBuffer) (d : List Int) (l : Int) (hb : Reach b)
      (hl : 1 ≤ l) : Reach (RingBuffer_write b d l).2
  | safeWrote (b : RingBuffer) (d : List Int) (l : Int) (hb : Reach b)
      (hl : 1 ≤ l) : Reach (RingBuffer_safe_write b d l).2
  | popped (b : RingBuffer) (l : Int) (hb : Reach b) (hl : 0 ≤ l) :
      Reach (RingBuffer_pop b l).2
  | cleared (b : RingBuffer) (hb : Reach b) : Reach (RingBuffer_clear b)

/-- A concrete pre-state for the wrap-correctness scenario: capacity 8,
built by writing 5 bytes into a fresh buffer and popping 4 of them, so
that one buffered byte (the value 5) remains at physical index 4 with
`start = end = 4`. -/
def wrapScenarioPre : RingBuffer :=
  (RingBuffer_pop (RingBuffer_write (RingBuffer_create 8) [1, 2, 3, 4, 5] 5).2
    4).2

/-- The 7-byte payload whose write into `wrapScenarioPre` crosses the
physical end of storage. -/
def wrapScenarioData : List Int := [11, 12, 13, 14, 15, 16, 17]

/-- The state after writing `wrapScenarioData` into `wrapScenarioPre`. -/
def wrapScenarioPost : RingBuffer :=
  (RingBuffer_write wrapScenarioPre wrapScenarioData 7).2

/-! ## Helper lemmas -/

/-- An integer below `2 * n` reduces under `% n` in one of two laps. -/
lemma emod_lap (x n : Int) (h1 : 0 ≤ x) (h2 : x < 2 * n) :
    (x % n = x ∧ x < n) ∨ (x % n = x - n ∧ n ≤ x) := by
  by_cases h : x < n
  · exact Or.inl ⟨Int.emod_eq_of_lt h1 h, h⟩
  · refine Or.inr ⟨?_, by omega⟩
    have h3 : (x - n) % n = x % n := by
      conv_rhs => rw [show x = x - n + n * 1 by ring]
      rw [Int.add_mul_emod_self_left]
    rw [← h3, Int.emod_eq_of_lt (by omega) (by omega)]

/-- `available_space` is `length - used_space` in every state (the C
bodies inline the same modular expression). -/
lemma avail_eq (b : RingBuffer) :
    RingBuffer_available_space b = b.length - RingBuffer_used_space b := by
  by_cases h : b.start = b.length
  · simp [RingBuffer_available_space, RingBuffer_used_space, h]
  · simp only [RingBuffer_available_space, RingBuffer_used_space, if_neg h]

/-- Closed form of `used_space` on a well-formed non-empty state. -/
lemma used_space_eq (b : RingBuffer) (hwf : WF b)
    (hne : b.start ≠ b.length) :
    RingBuffer_used_space b =
      if b.start ≤ b.end_ then b.end_ - b.start + 1
      else b.length + b.end_ - b.start + 1 := by
  rcases hwf with ⟨hs, _⟩ | ⟨h1, h2, h3, h4⟩
  · exact absurd hs hne
  unfold RingBuffer_used_space
  rw [if_neg hne]
  rcases emod_lap (b.length + b.end_ - b.start) b.length (by omega)
      (by omega) with ⟨hx, hb⟩ | ⟨hx, hb⟩ <;> rw [hx] <;> split <;> omega

/-- `used_space` of a well-formed non-empty state lies in `[1, length]`. -/
lemma used_space_bounds (b : RingBuffer) (hwf : WF b)
    (hne : b.start ≠ b.length) :
    1 ≤ RingBuffer_used_space b ∧ RingBuffer_used_space b ≤ b.length := by
  rcases hwf with ⟨hs, _⟩ | ⟨h1, h2, h3, h4⟩
  · exact absurd hs hne
  rw [used_space_eq b (Or.inr ⟨h1, h2, h3, h4⟩) hne]
  split <;> omega

/-- Closed form of `dist_to_end` on a non-empty state. -/
lemma dist_to_end_eq (b : RingBuffer) (hne : b.start ≠ b.length) :
    RingBuffer_dist_to_end b =
      if b.end_ < b.start then b.start - b.end_ - 1
      else b.length - b.end_ - 1 := by
  unfold RingBuffer_dist_to_end
  rw [if_neg hne]

/-- Result and post-state fields of a successful `RingBuffer_write` on
a well-formed non-empty buffer: the return value is `length`, `end`
advances by `length` modulo the capacity (in the non-wrapping branch
`end + length` is already reduced), and `start` advances by
`length - available_space` modulo the capacity exactly when the write
overwrites (`available_space < length`). -/
lemma write_spec (b : RingBuffer) (d : List Int) (l : Int) (hwf : WF b)
    (hne : b.start ≠ b.length) (h0 : 0 ≤ l) (hcap : l ≤ b.length) :
    (RingBuffer_write b d l).1 = l ∧
    (RingBuffer_write b d l).2.length = b.length ∧
    (RingBuffer_write b d l).2.end_ = (b.end_ + l) % b.length ∧
    (RingBuffer_write b d l).2.start =
      (if RingBuffer_available_space b < l then
        (b.start + (l - RingBuffer_available_space b)) % b.length
      else b.start) := by
  rcases hwf with ⟨hs, _⟩ | ⟨h1, h2, h3, h4⟩
  · exact absurd hs hne
  unfold RingBuffer_write
  rw [if_neg (not_lt.mpr hcap), if_neg hne]
  by_cases hd : RingBuffer_dist_to_end b < l
  · rw [if_pos hd]
    exact ⟨rfl, rfl, rfl, rfl⟩
  · rw [if_neg hd]
    refine ⟨rfl, rfl, ?_, rfl⟩
    rw [dist_to_end_eq b hne] at hd
    have : b.end_ + l = (b.end_ + l) % b.length := by
      rcases lt_or_ge b.end_ b.start with h | h
      · rw [if_pos h] at hd
        rw [Int.emod_eq_of_lt (by omega) (by omega)]
      · rw [if_neg (not_lt.mpr h)] at hd
        rw [Int.emod_eq_of_lt (by omega) (by omega)]
    exact this

/-- `create` establishes the sentinel state. -/
lemma wf_create (c : Int) : WF (RingBuffer_create c) := Or.inl ⟨rfl, rfl⟩

/-- `clear` establishes the sentinel state. -/
lemma wf_clear (b : RingBuffer) : WF (RingBuffer_clear b) := Or.inl ⟨rfl, rfl⟩

/-- `write` preserves the index invariant for positive lengths. -/
lemma wf_write (b : RingBuffer) (d : List Int) (l : Int) (hwf : WF b)
    (hl : 1 ≤ l) : WF (RingBuffer_write b d l).2 := by
  by_cases hcap : b.length < l
  · unfold RingBuffer_write
    rw [if_pos hcap]
    exact hwf
  by_cases hs : b.start = b.length
  · unfold RingBuffer_write
    rw [if_neg hcap, if_pos hs]
    refine Or.inr ⟨le_refl 0, ?_, ?_, ?_⟩
    · show (0 : Int) < b.length
      omega
    · show (0 : Int) ≤ l - 1
      omega
    · show l - 1 < b.length
      omega
  · rcases hwf with ⟨hs', _⟩ | ⟨h1, h2, h3, h4⟩
    · exact absurd hs' hs
    obtain ⟨w1, wlen, wend, wstart⟩ :=
      write_spec b d l (Or.inr ⟨h1, h2, h3, h4⟩) hs (by omega) (by omega)
    unfold WF
    rw [wlen, wend, wstart]
    right
    refine ⟨?_, ?_, Int.emod_nonneg _ (by omega), Int.emod_lt_of_pos _ (by omega)⟩
    · split
      · exact Int.emod_nonneg _ (by omega)
      · exact h1
    · split
      · exact Int.emod_lt_of_pos _ (by omega)
      · exact h2

/-- `safe_write` preserves the index invariant for positive lengths. -/
lemma wf_safe_write (b : RingBuffer) (d : List Int) (l : Int) (hwf : WF b)
    (hl : 1 ≤ l) : WF (RingBuffer_safe_write b d l).2 := by
  unfold RingBuffer_safe_write
  by_cases h : RingBuffer_available_space b < l
  · rw [if_pos h]
    exact hwf
  · rw [if_neg h]
    exact wf_write b d l hwf hl

/-- `pop` preserves the index invariant. -/
lemma wf_pop (b : RingBuffer) (l : Int) (hwf : WF b) :
    WF (RingBuffer_pop b l).2 := by
  unfold RingBuffer_pop popAfterClamp
  by_cases hs : b.start = b.length
  · rw [if_pos hs]
    exact hwf
  rw [if_neg hs]
  rcases hwf with ⟨hs', _⟩ | ⟨h1, h2, h3, h4⟩
  · exact absurd hs' hs
  set len := if RingBuffer_used_space b < l then RingBuffer_used_space b else l
    with hlen
  by_cases hc : len ≠ 0 ∧ (b.start + len) % b.length = b.end_ + 1
  · rw [if_pos hc]
    exact Or.inl ⟨rfl, rfl⟩
  · rw [if_neg hc]
    exact Or.inr
      ⟨Int.emod_nonneg _ (by omega), Int.emod_lt_of_pos _ (by omega), h3, h4⟩

/-! ## Claim theorems -/

/-- C8: for every buffer state (hence in particular every state
reachable from `create` through the public operations),
`used_space(b) + available_space(b) == capacity`. -/
theorem used_add_available_eq_capacity (b : RingBuffer) :
    RingBuffer_used_space b + RingBuffer_available_space b = b.length := by
  rw [avail_eq]
  ring

/-- C9: `clear(b)` sets `start == end == capacity`, so afterwards
`used_space == 0` and `available_space == capacity`, and it leaves the
storage contents and the capacity field unchanged, in any state. -/
theorem clear_spec (b : RingBuffer) :
    (RingBuffer_clear b).start = b.length ∧
    (RingBuffer_clear b).end_ = b.length ∧
    RingBuffer_used_space (RingBuffer_clear b) = 0 ∧
    RingBuffer_available_space (RingBuffer_clear b) = b.length ∧
    (RingBuffer_clear b).buffer = b.buffer ∧
    (RingBuffer_clear b).length = b.length := by
  refine ⟨rfl, rfl, ?_, ?_, rfl, rfl⟩
  · simp [RingBuffer_used_space, RingBuffer_clear]
  · simp [RingBuffer_available_space, RingBuffer_clear]

/-- C7: `write(b, data, length)` with `length > capacity` fails with
the `-1` indicator (`CapacityExceeded`) and leaves the entire buffer
state unchanged; with `0 ≤ length ≤ capacity` the call returns
`length`, so this failure never occurs. -/
theorem write_capacity_exceeded (b : RingBuffer) (d : List Int) (l : Int)
    (hl : 0 ≤ l) :
    (b.length < l → RingBuffer_write b d l = (-1, b)) ∧
    (l ≤ b.length →
      (RingBuffer_write b d l).1 = l ∧ (RingBuffer_write b d l).1 ≠ -1) := by
  constructor
  · intro h
    unfold RingBuffer_write
    rw [if_pos h]
  · intro h
    have h1 : (RingBuffer_write b d l).1 = l := by
      unfold RingBuffer_write
      rw [if_neg (not_lt.mpr h)]
      by_cases hs : b.start = b.length
      · rw [if_pos hs]
      · rw [if_neg hs]
        by_cases hd : RingBuffer_dist_to_end b < l
        · rw [if_pos hd]
        · rw [if_neg hd]
    refine ⟨h1, ?_⟩
    rw [h1]
    omega

/-- C7 witness: instantiated at `create 3`, `length = 1`. -/
theorem write_capacity_exceeded_witness :
    (0 : Int) ≤ 1 ∧
    (((RingBuffer_create 3).length < 1 →
        RingBuffer_write (RingBuffer_create 3) [] 1 = (-1, RingBuffer_create 3)) ∧
      (1 ≤ (RingBuffer_create 3).length →
        (RingBuffer_write (RingBuffer_create 3) [] 1).1 = 1 ∧
        (RingBuffer_write (RingBuffer_create 3) [] 1).1 ≠ -1)) :=
  ⟨by decide, write_capacity_exceeded (RingBuffer_create 3) [] 1 (by decide)⟩

/-- C10: on a well-formed non-empty buffer, `pop(b, 0)` returns a
successful zero-length byte sequence (not the empty-buffer `NULL`
indicator) and leaves the state — `start`, `end`, storage — untouched;
in particular the collapse to the empty sentinel is not taken. -/
theorem pop_zero_noop (b : RingBuffer) (hwf : WF b)
    (hne : b.start ≠ b.length) :
    RingBuffer_pop b 0 = (some [], b) := by
  rcases hwf with ⟨hs, _⟩ | ⟨h1, h2, h3, h4⟩
  · exact absurd hs hne
  have hu := used_space_bounds b (Or.inr ⟨h1, h2, h3, h4⟩) hne
  unfold RingBuffer_pop
  rw [if_neg (not_lt.mpr (by omega : (0 : Int) ≤ RingBuffer_used_space b))]
  unfold popAfterClamp
  rw [if_neg hne]
  have hd : ¬ RingBuffer_dist_to_end b < 0 := by
    rw [dist_to_end_eq b hne]
    split <;> omega
  rw [if_neg hd]
  have hcol : ¬ ((0 : Int) ≠ 0 ∧ (b.start + 0) % b.length = b.end_ + 1) := by
    simp
  rw [if_neg hcol]
  have hstart : (b.start + 0) % b.length = b.start := by
    rw [add_zero, Int.emod_eq_of_lt h1 h2]
  rw [hstart]
  have hread : readBytes b.buffer b.start 0 = [] := rfl
  rw [hread]

/-- C10 witness: instantiated at the single-byte state reached by
`write(create 3, [7], 1)`. -/
theorem pop_zero_noop_witness :
    (WF (RingBuffer_write (RingBuffer_create 3) [7] 1).2 ∧
      (RingBuffer_write (RingBuffer_create 3) [7] 1).2.start ≠
        (RingBuffer_write (RingBuffer_create 3) [7] 1).2.length) ∧
    RingBuffer_pop (RingBuffer_write (RingBuffer_create 3) [7] 1).2 0 =
      (some [], (RingBuffer_write (RingBuffer_create 3) [7] 1).2) :=
  ⟨⟨by decide, by decide⟩,
    pop_zero_noop (RingBuffer_write (RingBuffer_create 3) [7] 1).2
      (by decide) (by decide)⟩

/-- C4 counterexample: `write` with length 0 is accepted by the API
(it returns 0, not the error indicator `-1`), yet on an empty buffer it
leaves `start = 0`, `end = -1`, which is neither the empty sentinel nor
a pair of valid storage indices — the claimed invariant is violated by
a reachable state. -/
theorem write_zero_on_empty_breaks_invariant :
    (RingBuffer_write (RingBuffer_create 2) [] 0).1 = 0 ∧
    (RingBuffer_write (RingBuffer_create 2) [] 0).2.start = 0 ∧
    (RingBuffer_write (RingBuffer_create 2) [] 0).2.end_ = -1 ∧
    ¬ WF (RingBuffer_write (RingBuffer_create 2) [] 0).2 := by decide

/-- C4 (amended: every `write`/`safe_write` in the sequence has length
at least 1): every state reachable from `create` by the public mutating
operations satisfies the index invariant — either
`start == end == capacity`, or both indices lie in `[0, capacity)`. -/
theorem reach_index_invariant (b : RingBuffer) (h : Reach b) : WF b := by
  induction h with
  | created cap hcap => exact wf_create cap
  | wrote b d l hb hl ih => exact wf_write b d l ih hl
  | safeWrote b d l hb hl ih => exact wf_safe_write b d l ih hl
  | popped b l hb hl ih => exact wf_pop b l ih
  | cleared b hb ih => exact wf_clear b

/-- C4 witness: the invariant holds at the concrete state reached by
`create 3`, `write [1,2] 2`, `pop 1`. -/
theorem reach_index_invariant_witness :
    WF (RingBuffer_pop (RingBuffer_write (RingBuffer_create 3) [1, 2] 2).2 1).2 :=
  reach_index_invariant _
    (Reach.popped _ 1
      (Reach.wrote _ [1, 2] 2 (Reach.created 3 (by decide)) (by decide))
      (by decide))

/-- C1: over-pop does NOT always leave the buffer empty.  Concretely:
after `create 2` and `write [10,20] 2` the state has `used_space = 2`
and `end = capacity - 1 = 1`; `pop` with requested length 3 clamps to 2
and returns a 2-byte sequence, but the collapse check
`start == end + 1` (no modulo) fails because `start` wrapped to 0, so
the final state is `start = 0`, `end = 1` with `used_space = 2` — a
full-looking buffer instead of the claimed empty one. -/
theorem over_pop_no_collapse_bug :
    RingBuffer_used_space (RingBuffer_write (RingBuffer_create 2) [10, 20] 2).2
      = 2 ∧
    (RingBuffer_pop (RingBuffer_write (RingBuffer_create 2) [10, 20] 2).2 3).1
      = some [10, 10] ∧
    (RingBuffer_pop (RingBuffer_write (RingBuffer_create 2) [10, 20] 2).2 3).2.start
      = 0 ∧
    (RingBuffer_pop (RingBuffer_write (RingBuffer_create 2) [10, 20] 2).2 3).2.end_
      = 1 ∧
    RingBuffer_used_space
      (RingBuffer_pop (RingBuffer_write (RingBuffer_create 2) [10, 20] 2).2 3).2
      = 2 := by decide

/-- C3: the write/pop round trip fails.  On an empty buffer of
capacity 2, `write [1,2] 2` succeeds, but `pop 2` returns `[1,1]`:
`pop` decides its split copy with `dist_to_end` (anchored at `end`)
although it reads from `start`, so it copies physical index 0 twice
instead of indices 0 and 1. -/
theorem round_trip_bug :
    (RingBuffer_write (RingBuffer_create 2) [1, 2] 2).1 = 2 ∧
    (RingBuffer_pop (RingBuffer_write (RingBuffer_create 2) [1, 2] 2).2 2).1
      = some [1, 1] ∧
    some [1, 1] ≠ some ([1, 2] : List Int) := by decide

/-- C2: wrap correctness fails.  In `wrapScenarioPre` (capacity 8, one
buffered byte, `start = end = 4`, `dist_to_end = 3`), writing the
7-byte payload crosses the physical end (`3 < 7`) with no overwrite
(`available_space = 7`).  Popping the 1 previously buffered byte and
then popping 7 returns `[11,12,14,15,16,17,5]`, not the payload: the
byte 13 at physical index 7 is skipped and the stale byte 5 is
re-read, again because `pop` splits its copy at `dist_to_end` instead
of at the distance from `start` to the physical end. -/
theorem wrap_write_pop_reassembly_bug :
    RingBuffer_used_space wrapScenarioPre = 1 ∧
    RingBuffer_dist_to_end wrapScenarioPre = 3 ∧
    RingBuffer_available_space wrapScenarioPre = 7 ∧
    (RingBuffer_write wrapScenarioPre wrapScenarioData 7).1 = 7 ∧
    (RingBuffer_pop wrapScenarioPost 1).1 = some [5] ∧
    (RingBuffer_pop (RingBuffer_pop wrapScenarioPost 1).2 7).1
      = some [11, 12, 14, 15, 16, 17, 5] ∧
    some [11, 12, 14, 15, 16, 17, 5] ≠ some wrapScenarioData := by decide

/-- C5: an overwriting write (`length ≤ capacity`,
`length > available_space`) on a well-formed buffer succeeds, advances
`start` by exactly `length - available_space` modulo the capacity
(dropping that many oldest bytes), and leaves
`used_space = min(used_space_before + length, capacity)`. -/
theorem write_overwrite_shift (b : RingBuffer) (d : List Int) (l : Int)
    (hwf : WF b) (hcap : l ≤ b.length)
    (hover : RingBuffer_available_space b < l) :
    (RingBuffer_write b d l).1 = l ∧
    (RingBuffer_write b d l).2.start =
      (b.start + (l - RingBuffer_available_space b)) % b.length ∧
    RingBuffer_used_space (RingBuffer_write b d l).2 =
      min (RingBuffer_used_space b + l) b.length := by
  have hne : b.start ≠ b.length := by
    intro hs
    have hav' : RingBuffer_available_space b = b.length := by
      unfold RingBuffer_available_space
      rw [if_pos hs]
    omega
  rcases hwf with ⟨hs, _⟩ | ⟨h1, h2, h3, h4⟩
  · exact absurd hs hne
  have hav := avail_eq b
  have hus := used_space_eq b (Or.inr ⟨h1, h2, h3, h4⟩) hne
  have hub := used_space_bounds b (Or.inr ⟨h1, h2, h3, h4⟩) hne
  have h0 : 0 ≤ l := by omega
  obtain ⟨w1, wlen, wend, wstart⟩ :=
    write_spec b d l (Or.inr ⟨h1, h2, h3, h4⟩) hne h0 hcap
  rw [if_pos hover] at wstart
  refine ⟨w1, wstart, ?_⟩
  have hs0 : 0 ≤ (RingBuffer_write b d l).2.start := by
    rw [wstart]
    exact Int.emod_nonneg _ (by omega)
  have hs1 : (RingBuffer_write b d l).2.start < b.length := by
    rw [wstart]
    exact Int.emod_lt_of_pos _ (by omega)
  have he0 : 0 ≤ (RingBuffer_write b d l).2.end_ := by
    rw [wend]
    exact Int.emod_nonneg _ (by omega)
  have he1 : (RingBuffer_write b d l).2.end_ < b.length := by
    rw [wend]
    exact Int.emod_lt_of_pos _ (by omega)
  have hne' : (RingBuffer_write b d l).2.start ≠ (RingBuffer_write b d l).2.length := by
    rw [wlen]
    omega
  have hwf' : WF (RingBuffer_write b d l).2 :=
    Or.inr ⟨hs0, by rw [wlen]; exact hs1, he0, by rw [wlen]; exact he1⟩
  have hus' := used_space_eq _ hwf' hne'
  rw [min_eq_right (by omega : b.length ≤ RingBuffer_used_space b + l),
    hus', wlen, wend, wstart]
  rcases le_or_lt b.start b.end_ with hse | hse
  · rw [if_pos hse] at hus
    rcases emod_lap (b.end_ + l) b.length (by omega) (by omega) with
        ⟨he, he2⟩ | ⟨he, he2⟩ <;>
      rcases emod_lap (b.start + (l - RingBuffer_available_space b)) b.length
          (by omega) (by omega) with ⟨hs', hsl⟩ | ⟨hs', hsl⟩ <;>
        rw [he, hs'] <;> split <;> omega
  · rw [if_neg (not_le.mpr hse)] at hus
    rcases emod_lap (b.end_ + l) b.length (by omega) (by omega) with
        ⟨he, he2⟩ | ⟨he, he2⟩ <;>
      rcases emod_lap (b.start + (l - RingBuffer_available_space b)) b.length
          (by omega) (by omega) with ⟨hs', hsl⟩ | ⟨hs', hsl⟩ <;>
        rw [he, hs'] <;> split <;> omega

/-- C5 witness: capacity 3, state `start = 0`, `end = 1`
(`used = 2`, `available = 1`), overwriting write of length 2. -/
theorem write_overwrite_shift_witness :
    (WF (RingBuffer_write (RingBuffer_create 3) [1, 2] 2).2 ∧
      2 ≤ (RingBuffer_write (RingBuffer_create 3) [1, 2] 2).2.length ∧
      RingBuffer_available_space (RingBuffer_write (RingBuffer_create 3) [1, 2] 2).2 < 2) ∧
    ((RingBuffer_write (RingBuffer_write (RingBuffer_create 3) [1, 2] 2).2 [8, 9] 2).1 = 2 ∧
      (RingBuffer_write (RingBuffer_write (RingBuffer_create 3) [1, 2] 2).2 [8, 9] 2).2.start =
        ((RingBuffer_write (RingBuffer_create 3) [1, 2] 2).2.start +
          (2 - RingBuffer_available_space (RingBuffer_write (RingBuffer_create 3) [1, 2] 2).2)) %
          (RingBuffer_write (RingBuffer_create 3) [1, 2] 2).2.length ∧
      RingBuffer_used_space
          (RingBuffer_write (RingBuffer_write (RingBuffer_create 3) [1, 2] 2).2 [8, 9] 2).2 =
        min (RingBuffer_used_space (RingBuffer_write (RingBuffer_create 3) [1, 2] 2).2 + 2)
          (RingBuffer_write (RingBuffer_create 3) [1, 2] 2).2.length) :=
  ⟨⟨by decide, by decide, by decide⟩,
    write_overwrite_shift (RingBuffer_write (RingBuffer_create 3) [1, 2] 2).2
      [8, 9] 2 (by decide) (by decide) (by decide)⟩

/-- C6: `safe_write` fails (returning `-1` with the state — indices,
space accounting, storage — literally unchanged) exactly when
`available_space < length`; otherwise it is definitionally the same
call as `write`, which succeeds and, on a non-empty buffer, never moves
`start` (drops no old bytes) because the overwrite branch requires
`available_space < length`. -/
theorem safe_write_no_overwrite (b : RingBuffer) (d : List Int) (l : Int)
    (hwf : WF b) (hl : 0 ≤ l) :
    (RingBuffer_available_space b < l →
      RingBuffer_safe_write b d l = (-1, b)) ∧
    (l ≤ RingBuffer_available_space b →
      RingBuffer_safe_write b d l = RingBuffer_write b d l ∧
      (RingBuffer_write b d l).1 = l ∧
      (b.start ≠ b.length → (RingBuffer_write b d l).2.start = b.start)) := by
  constructor
  · intro h
    unfold RingBuffer_safe_write
    rw [if_pos h]
  · intro h
    have hdeleg : RingBuffer_safe_write b d l = RingBuffer_write b d l := by
      unfold RingBuffer_safe_write
      rw [if_neg (not_lt.mpr h)]
    by_cases hs : b.start = b.length
    · have hful : RingBuffer_available_space b = b.length := by
        unfold RingBuffer_available_space
        rw [if_pos hs]
      refine ⟨hdeleg, ?_, fun hne => absurd hs hne⟩
      unfold RingBuffer_write
      rw [if_neg (not_lt.mpr (by omega)), if_pos hs]
    · rcases hwf with ⟨hs', _⟩ | ⟨h1, h2, h3, h4⟩
      · exact absurd hs' hs
      have hub := used_space_bounds b (Or.inr ⟨h1, h2, h3, h4⟩) hs
      have hav := avail_eq b
      obtain ⟨w1, wlen, wend, wstart⟩ :=
        write_spec b d l (Or.inr ⟨h1, h2, h3, h4⟩) hs hl (by omega)
      rw [if_neg (not_lt.mpr h)] at wstart
      exact ⟨hdeleg, w1, fun _ => wstart⟩

/-- C6 witness: empty buffer of capacity 3, safe write of one byte. -/
theorem safe_write_no_overwrite_witness :
    (WF (RingBuffer_create 3) ∧ (0 : Int) ≤ 1) ∧
    ((RingBuffer_available_space (RingBuffer_create 3) < 1 →
        RingBuffer_safe_write (RingBuffer_create 3) [5] 1 =
          (-1, RingBuffer_create 3)) ∧
      (1 ≤ RingBuffer_available_space (RingBuffer_create 3) →
        RingBuffer_safe_write (RingBuffer_create 3) [5] 1 =
          RingBuffer_write (RingBuffer_create 3) [5] 1 ∧
        (RingBuffer_write (RingBuffer_create 3) [5] 1).1 = 1 ∧
        ((RingBuffer_create 3).start ≠ (RingBuffer_create 3).length →
          (RingBuffer_write (RingBuffer_create 3) [5] 1).2.start =
            (RingBuffer_create 3).start))) :=
  ⟨⟨by decide, by decide⟩,
    safe_write_no_overwrite (RingBuffer_create 3) [5] 1 (by decide) (by decide)⟩
